import Mathlib

/-!
Verification of the zaichik in-memory pub/sub broker against its design
specification.  The Rust sources are shallowly embedded: `time::Instant`
and `time::Duration` become `Nat` (milliseconds), `Vec<u8>` becomes
`List Nat`, `HashMap<String, Instant>` becomes an association list with
insert-replace semantics, and the tokio broadcast channel is modelled as
an append-only log together with per-receiver cursors.  Places where the
Rust code can panic (`Option::unwrap`) are modelled with `Option`
results, `none` standing for the panic.
-/

/-- Association-list lookup, modelling `HashMap::get`. -/
def lookupA {α : Type} (k : String) : List (String × α) → Option α
  | [] => none
  | (k', v) :: rest => if k' = k then some v else lookupA k rest

/-- Association-list insert with replacement, modelling `HashMap::insert`. -/
def insertA {α : Type} (k : String) (v : α) (m : List (String × α)) :
    List (String × α) :=
  (k, v) :: m.filter (fun p => p.1 ≠ k)

namespace TC

/-- `Message` from `topic_controller.rs`: dedup key, payload bytes,
broker-stamped receive instant, optional expiry instant. -/
structure Message where
  key : Option String
  payload : List Nat
  receivedAt : Nat
  expiresAt : Option Nat
deriving DecidableEq

/-- `TopicSettings` from `topic_controller.rs`. -/
structure TopicSettings where
  retentionTtl : Option Nat
  compactionWindow : Option Nat
  bufferSize : Nat
deriving DecidableEq

/-- `TopicSettings::new`: a zero ttl or window means disabled; a zero
buffer size defaults to 1000. -/
def TopicSettings.new (retentionTtl compactionWindow bufferSize : Nat) :
    TopicSettings where
  retentionTtl := if retentionTtl = 0 then none else some retentionTtl
  compactionWindow := if compactionWindow = 0 then none else some compactionWindow
  bufferSize := if bufferSize = 0 then 1000 else bufferSize

/-- `TopicController` state.  The broadcast channel is modelled by the
append-only `broadcastLog` of every message handed to
`broadcast_sender.send`; a receiver is a cursor into this log. -/
structure TopicController where
  name : String
  settings : TopicSettings
  broadcastLog : List Message
  compactionMap : List (String × Nat)
  retainedBuffer : List Message
deriving DecidableEq

/-- `TopicController::new`. -/
def TopicController.new (name : String)
    (retentionTtl compactionWindow bufferSize : Nat) : TopicController where
  name := name
  settings := TopicSettings.new retentionTtl compactionWindow bufferSize
  broadcastLog := []
  compactionMap := []
  retainedBuffer := []

/-- `TopicController::check_duplicate_and_update_compaction_map`.  `now`
stands for the `Instant::now()` read inside the function; `now - t` is the
saturating `duration_since`. -/
def checkDuplicateAndUpdateCompactionMap (message : Message)
    (compactionMap : List (String × Nat)) (compactionWindow now : Nat) :
    Bool × List (String × Nat) :=
  match message.key with
  | none => (false, compactionMap)
  | some key =>
    match lookupA key compactionMap with
    | some lastSentAt =>
      if now - lastSentAt < compactionWindow then
        (true, compactionMap)
      else
        (false, insertA key now compactionMap)
    | none => (false, insertA key now compactionMap)

/-- `TopicController::clean_outdated_compaction_keys`: remove every key
whose stored instant plus the window is before `now`. -/
def cleanOutdatedCompactionKeys (settings : TopicSettings)
    (compactionMap : List (String × Nat)) (now : Nat) : List (String × Nat) :=
  match settings.compactionWindow with
  | some w => compactionMap.filter (fun p => ¬ (p.2 + w < now))
  | none => compactionMap

/-- The `Vec::retain` inside `clean_outdated_retained_messages`, keeping
entries with `expires_at.unwrap() > now`.  A `none` expiry makes the
`unwrap` panic, modelled as a `none` result. -/
def retainUnexpired (now : Nat) : List Message → Option (List Message)
  | [] => some []
  | m :: rest =>
    match m.expiresAt with
    | none => none
    | some e => (retainUnexpired now rest).map
        (fun r => if now < e then m :: r else r)

/-- `TopicController::clean_outdated_retained_messages`: a no-op unless
retention is enabled. -/
def cleanOutdatedRetainedMessages (settings : TopicSettings)
    (buffer : List Message) (now : Nat) : Option (List Message) :=
  if settings.retentionTtl.isSome then retainUnexpired now buffer
  else some buffer

/-- The message constructed at the top of `TopicController::publish`:
`expires_at = received_at + retention_ttl` when retention is enabled,
absent otherwise. -/
def publishedMessage (settings : TopicSettings) (key : Option String)
    (payload : List Nat) (receivedAt : Nat) : Message where
  key := key
  payload := payload
  receivedAt := receivedAt
  expiresAt := settings.retentionTtl.map (fun ttl => receivedAt + ttl)

/-- The duplicate check at the top of `publish`: consulted only when
compaction is enabled. -/
def dupCheck (tc : TopicController) (message : Message) (now : Nat) :
    Bool × List (String × Nat) :=
  match tc.settings.compactionWindow with
  | some w => checkDuplicateAndUpdateCompactionMap message tc.compactionMap w now
  | none => (false, tc.compactionMap)

/-- The state of the controller after the fan-out/retain half of
`publish` (everything before the two cleanup passes): a duplicate only
keeps the (unchanged) compaction map; a non-duplicate is appended to the
broadcast channel and, when retention is enabled, to the retained
buffer. -/
def prePublish (tc : TopicController) (key : Option String)
    (payload : List Nat) (receivedAt now : Nat) : TopicController :=
  let message := publishedMessage tc.settings key payload receivedAt
  let dup := dupCheck tc message now
  if dup.1 then
    { tc with compactionMap := dup.2 }
  else
    { tc with
      compactionMap := dup.2
      broadcastLog := tc.broadcastLog ++ [message]
      retainedBuffer :=
        if tc.settings.retentionTtl.isSome then tc.retainedBuffer ++ [message]
        else tc.retainedBuffer }

/-- `TopicController::publish`.  `now` stands for the `Instant::now()`
reads made during this call (duplicate check and the two cleanups).
A `none` result models the `unwrap` panic inside the retained-buffer
cleanup. -/
def TopicController.publish (tc : TopicController) (key : Option String)
    (payload : List Nat) (receivedAt now : Nat) : Option TopicController :=
  let tc1 := prePublish tc key payload receivedAt now
  match cleanOutdatedRetainedMessages tc1.settings tc1.retainedBuffer now with
  | none => none
  | some buffer =>
    some { tc1 with
           retainedBuffer := buffer
           compactionMap := cleanOutdatedCompactionKeys tc1.settings tc1.compactionMap now }

/-- A per-subscriber stream handle: the cloned snapshot of the retained
buffer, and the broadcast-receiver cursor (a fresh receiver sees only
messages sent after it was acquired). -/
structure Subscription where
  snapshot : List Message
  cursor : Nat
deriving DecidableEq

/-- `TopicController::subscribe`: snapshot the retained buffer and
acquire a fresh broadcast receiver. -/
def TopicController.subscribe (tc : TopicController) : Subscription where
  snapshot := tc.retainedBuffer
  cursor := tc.broadcastLog.length

/-- The messages the stream returned by `subscribe` yields, read against
a (possibly later) controller state: the snapshot chained with the live
receiver's view of the broadcast log. -/
def subscriptionStream (sub : Subscription) (tc : TopicController) :
    List Message :=
  sub.snapshot ++ tc.broadcastLog.drop sub.cursor

/-- One publish request (arguments of a `publish` call). -/
structure PubReq where
  key : Option String
  payload : List Nat
  receivedAt : Nat
  now : Nat

/-- Fold a list of publish requests over a controller. -/
def publishMany : TopicController → List PubReq → Option TopicController
  | tc, [] => some tc
  | tc, r :: rest =>
    match tc.publish r.key r.payload r.receivedAt r.now with
    | none => none
    | some tc' => publishMany tc' rest

/-- Controller states reachable from `TopicController::new` by
(non-panicking) `publish` calls. -/
inductive Reachable : TopicController → Prop
  | new (name : String) (retentionTtl compactionWindow bufferSize : Nat) :
      Reachable (TopicController.new name retentionTtl compactionWindow bufferSize)
  | publish (tc tc' : TopicController) (key : Option String)
      (payload : List Nat) (receivedAt now : Nat) :
      Reachable tc → tc.publish key payload receivedAt now = some tc' →
      Reachable tc'

end TC

namespace Reg

/-- `TopicSettings` from `topic_registry.rs` (the registry stores
settings only; note the field is `dedup_ttl` there). -/
structure TopicSettings where
  retentionTtl : Option Nat
  dedupTtl : Option Nat
deriving DecidableEq

/-- `topic_registry::TopicSettings::new`: zero means disabled. -/
def TopicSettings.new (retentionTtl dedupTtl : Nat) : TopicSettings where
  retentionTtl := if retentionTtl = 0 then none else some retentionTtl
  dedupTtl := if dedupTtl = 0 then none else some dedupTtl

/-- `TopicRegistry.topics`: map from topic name to its settings. -/
def TopicRegistry := List (String × TopicSettings)

instance : DecidableEq TopicRegistry :=
  inferInstanceAs (DecidableEq (List (String × TopicSettings)))

/-- `TopicRegistry::new`. -/
def TopicRegistry.new : TopicRegistry := []

/-- `TopicRegistry::add_topic`: builds the settings and inserts them,
unconditionally replacing any existing entry for the name. -/
def addTopic (reg : TopicRegistry) (topic : String)
    (retentionTtl dedupTtl : Nat) : TopicRegistry :=
  insertA topic (TopicSettings.new retentionTtl dedupTtl) reg

end Reg

namespace SM

/-- `subscription_manager::Message`: the unit stored in
`MessagesBuffer`.  Its `expires_at` field is stamped with
`Instant::now()` on queueing and never read afterwards. -/
structure Message where
  topic : String
  key : Option String
  payload : List Nat
  receivedAt : Nat
  expiresAt : Nat
deriving DecidableEq

/-- `MessagesBuffer`: the per-connection queue plus the dedup table. -/
structure MessagesBuffer where
  buffer : List Message
  dedupMap : List (String × Nat)
deriving DecidableEq

/-- `MessagesBuffer::new`. -/
def MessagesBuffer.new : MessagesBuffer := ⟨[], []⟩

/-- `MessagesBuffer::queue_message` (`push_back`). -/
def MessagesBuffer.queueMessage (mb : MessagesBuffer) (m : Message) :
    MessagesBuffer :=
  { mb with buffer := mb.buffer ++ [m] }

/-- `MessagesBuffer::check_duplicate_and_update_dedup_map`; the map is
threaded explicitly. -/
def checkDuplicateAndUpdateDedupMap (dedupMap : List (String × Nat))
    (message : Message) (dedupTtl now : Nat) : Bool × List (String × Nat) :=
  match message.key with
  | none => (false, dedupMap)
  | some key =>
    match lookupA key dedupMap with
    | some lastSentAt =>
      if now - lastSentAt < dedupTtl then
        (true, dedupMap)
      else
        (false, insertA key now dedupMap)
    | none => (false, insertA key now dedupMap)

/-- `MessagesBuffer::message_is_out_of_date`: strictly more time than
`retention_ttl` has passed since `received_at`. -/
def messageIsOutOfDate (message : Message) (retentionTtl now : Nat) : Bool :=
  decide (now - message.receivedAt > retentionTtl)

/-- The loop body of `MessagesBuffer::next`, popping from the front of
the queue until a deliverable message is found.  Returns the result, the
remaining queue, and the updated dedup map. -/
def nextRec (reg : Reg.TopicRegistry) (subscribedOn : List String)
    (now : Nat) :
    List Message → List (String × Nat) →
    Option Message × List Message × List (String × Nat)
  | [], dedupMap => (none, [], dedupMap)
  | m :: rest, dedupMap =>
    match lookupA m.topic reg with
    | none => nextRec reg subscribedOn now rest dedupMap
    | some settings =>
      let notInterestedIn := ! subscribedOn.contains m.topic
      let outOfDate :=
        match settings.retentionTtl with
        | some ttl => messageIsOutOfDate m ttl now
        | none => false
      if notInterestedIn || outOfDate then
        nextRec reg subscribedOn now rest dedupMap
      else
        match settings.dedupTtl with
        | none => (some m, rest, dedupMap)
        | some ttl =>
          let r := checkDuplicateAndUpdateDedupMap dedupMap m ttl now
          if r.1 then nextRec reg subscribedOn now rest r.2
          else (some m, rest, r.2)

/-- `MessagesBuffer::next`. -/
def MessagesBuffer.next (mb : MessagesBuffer) (subscribedOn : List String)
    (reg : Reg.TopicRegistry) (now : Nat) : Option Message × MessagesBuffer :=
  let r := nextRec reg subscribedOn now mb.buffer mb.dedupMap
  (r.1, ⟨r.2.1, r.2.2⟩)

/-- The client-command frames handled by `SubscriptionManager::start_loop`. -/
inductive CFrame
  | createTopic (topic : String) (retentionTtl dedupTtl : Nat)
  | subscribe (topic : String)
  | unsubscribe (topic : String)
  | publish (topic : String) (key : Option String) (payload : List Nat)
  | commit
  | closeConnection
deriving DecidableEq

/-- One frame received from the connection-wide broadcast: the frame,
whether it was sent by this connection's own peer, and the broker clock
at handling time (also standing for the wrapper's `received_at`). -/
structure Input where
  frame : CFrame
  mine : Bool
  now : Nat
deriving DecidableEq

/-- Per-connection state of `SubscriptionManager::start_loop`.  The
shared registry is folded into the state since the claims concern a
single connection. -/
structure ConnState where
  subscribedOn : List String
  messageBuffer : MessagesBuffer
  registry : Reg.TopicRegistry
  waitingForNextMessage : Bool
  closed : Bool
deriving DecidableEq

/-- The manager's fresh state at connection start. -/
def initState : ConnState :=
  ⟨[], MessagesBuffer.new, Reg.TopicRegistry.new, false, false⟩

/-- `HashSet::insert` on the subscription set. -/
def setInsert (t : String) (l : List String) : List String :=
  if l.contains t then l else t :: l

/-- `SubscriptionManager::peer_is_me`: `Publish` frames pass for every
connection, other frames only when sent by this connection's peer. -/
def peerIsMe (inp : Input) : Bool :=
  match inp.frame with
  | .publish _ _ _ => true
  | _ => inp.mine

/-- The command-handling `match` of `start_loop`, one arm per frame. -/
def handleFrame (st : ConnState) (frame : CFrame) (now : Nat) : ConnState :=
  match frame with
  | .createTopic topic retentionTtl dedupTtl =>
    { st with registry := Reg.addTopic st.registry topic retentionTtl dedupTtl }
  | .subscribe topic =>
    let st1 :=
      if st.subscribedOn.isEmpty then { st with waitingForNextMessage := true }
      else st
    let st2 :=
      if (lookupA topic st1.registry).isNone then
        { st1 with registry := Reg.addTopic st1.registry topic 0 0 }
      else st1
    { st2 with subscribedOn := setInsert topic st2.subscribedOn }
  | .unsubscribe topic =>
    { st with subscribedOn := st.subscribedOn.erase topic }
  | .publish topic key payload =>
    { st with messageBuffer :=
        st.messageBuffer.queueMessage ⟨topic, key, payload, now, now⟩ }
  | .commit => { st with waitingForNextMessage := true }
  | .closeConnection => { st with closed := true }

/-- The delivery attempt at the bottom of each `start_loop` iteration:
when the client is waiting, pop the next deliverable message and send it
(the outbound write is assumed to succeed), clearing the flag. -/
def deliverPhase (st : ConnState) (now : Nat) : ConnState × Option Message :=
  if st.waitingForNextMessage then
    match st.messageBuffer.next st.subscribedOn st.registry now with
    | (some m, mb') =>
      ({ st with messageBuffer := mb', waitingForNextMessage := false }, some m)
    | (none, mb') => ({ st with messageBuffer := mb' }, none)
  else (st, none)

/-- One iteration of the `start_loop` body: handle the command if
`peer_is_me`, then (unless the loop broke on `CloseConnection`) attempt
one delivery when the client is waiting.  A closed manager ignores
further input. -/
def step (st : ConnState) (inp : Input) : ConnState × Option Message :=
  if st.closed then (st, none)
  else
    let st1 := if peerIsMe inp then handleFrame st inp.frame inp.now else st
    if st1.closed then (st1, none)
    else deliverPhase st1 inp.now

/-- The manager state after a list of inputs. -/
def runState (st : ConnState) : List Input → ConnState
  | [] => st
  | inp :: rest => runState (step st inp).1 rest

/-- The per-step delivery outputs over a list of inputs. -/
def runOutputs (st : ConnState) : List Input → List (Option Message)
  | [] => []
  | inp :: rest => (step st inp).2 :: runOutputs (step st inp).1 rest

/-- An input that can re-arm `waiting_for_next_message`: a processed
`Commit` or a processed `Subscribe`. -/
def rearms (inp : Input) : Bool :=
  peerIsMe inp &&
    (match inp.frame with
     | .commit => true
     | .subscribe _ => true
     | _ => false)

/-- A `Commit` input from this client. -/
def isCommitFrom (inp : Input) : Bool :=
  inp.mine &&
    (match inp.frame with
     | .commit => true
     | _ => false)

/-- The at-most-one-in-flight contract as the spec states it: in the
output trace of a run, between any two successive deliveries the broker
received a `Commit` frame from this client (possibly in the same
iteration as the second delivery). -/
def commitSeparated (st : ConnState) (inputs : List Input) : Prop :=
  ∀ j : Nat, j < inputs.length → ∀ i : Nat, i < j →
    ((runOutputs st inputs).getD i none).isSome = true →
    ((runOutputs st inputs).getD j none).isSome = true →
    (∀ k : Nat, k < j → i < k → (runOutputs st inputs).getD k none = none) →
    ∃ k : Nat, k < j + 1 ∧ i < k ∧
      isCommitFrom (inputs.getD k ⟨CFrame.commit, false, 0⟩) = true

/-- An operation on a `MessagesBuffer`: enqueue a message
(`queue_message`) or ask for the next deliverable one (`next`, with
whatever subscription set, registry and clock the connection has at that
moment). -/
inductive BufOp
  | push (m : Message)
  | pull (reg : Reg.TopicRegistry) (subscribedOn : List String) (now : Nat)

/-- All messages delivered by a sequence of buffer operations. -/
def runBuffer (mb : MessagesBuffer) : List BufOp → List Message
  | [] => []
  | .push m :: rest => runBuffer (mb.queueMessage m) rest
  | .pull reg subscribedOn now :: rest =>
    let r := mb.next subscribedOn reg now
    r.1.toList ++ runBuffer r.2 rest

/-- The messages enqueued by a sequence of buffer operations. -/
def pushedOf : List BufOp → List Message
  | [] => []
  | .push m :: rest => m :: pushedOf rest
  | .pull _ _ _ :: rest => pushedOf rest

/-- Why `MessagesBuffer::next` discards an examined message: its topic
has no registry entry, or the connection is not subscribed to it, or it
is out of date, or it is dropped by the dedup check (which requires a
key and an enabled dedup window). -/
def droppedReason (reg : Reg.TopicRegistry) (subscribedOn : List String)
    (now : Nat) (d : Message) : Prop :=
  lookupA d.topic reg = none ∨
  subscribedOn.contains d.topic = false ∨
  (∃ s ttl, lookupA d.topic reg = some s ∧ s.retentionTtl = some ttl ∧
    messageIsOutOfDate d ttl now = true) ∨
  (∃ s ttl, lookupA d.topic reg = some s ∧ s.dedupTtl = some ttl ∧
    d.key.isSome = true)

end SM

namespace Codec

/-- Little-endian fixed-width byte encoding of a natural number
(truncating), as bincode encodes `u32`/`u64`. -/
def bytesLE : Nat → Nat → List Nat
  | 0, _ => []
  | w + 1, n => n % 256 :: bytesLE w (n / 256)

/-- Value of a little-endian byte list. -/
def valLE : List Nat → Nat
  | [] => 0
  | b :: rest => b + 256 * valLE rest

/-- Read exactly `n` bytes from the front, or fail. -/
def readN (n : Nat) (l : List Nat) : Option (List Nat × List Nat) :=
  if n ≤ l.length then some (l.take n, l.drop n) else none

/-- `ZaichikFrame` from `protocol.rs` (`Publish {topic, payload}` and
`Subscribe {topic}`); strings are kept as their UTF-8 byte lists. -/
inductive ZaichikFrame
  | publish (topic payload : List Nat)
  | subscribe (topic : List Nat)
deriving DecidableEq

/-- bincode serialization of a frame: a `u32` little-endian variant
index, then each field; `String` and `Vec<u8>` are a `u64` little-endian
length followed by the bytes. -/
def serializeFrame : ZaichikFrame → List Nat
  | .publish topic payload =>
    bytesLE 4 0 ++ bytesLE 8 topic.length ++ topic ++
      bytesLE 8 payload.length ++ payload
  | .subscribe topic => bytesLE 4 1 ++ bytesLE 8 topic.length ++ topic

/-- Read one length-prefixed field (`u64` length, then that many bytes). -/
def readLenField (l : List Nat) : Option (List Nat × List Nat) :=
  match readN 8 l with
  | some (lenBytes, rest) => readN (valLE lenBytes) rest
  | none => none

/-- bincode deserialization of one frame from the front of the buffer;
trailing bytes are ignored. -/
def deserializeFrame (l : List Nat) : Option ZaichikFrame :=
  match readN 4 l with
  | none => none
  | some (tagBytes, rest) =>
    match valLE tagBytes with
    | 0 =>
      match readLenField rest with
      | some (topic, r2) =>
        match readLenField r2 with
        | some (payload, _) => some (.publish topic payload)
        | none => none
      | none => none
    | 1 => (readLenField rest).map (fun p => ZaichikFrame.subscribe p.1)
    | _ => none

/-- `ZaichikCodec::decode`: an empty buffer yields `Ok(None)` ("need
more"); otherwise deserialize from the front, on success split off the
frame's serialized size, on failure clear the buffer and return the
decode error.  The result pairs the `Result<Option<Frame>>` with the
buffer contents after the call. -/
def decode (buf : List Nat) : Except Unit (Option ZaichikFrame) × List Nat :=
  if buf.isEmpty then (.ok none, buf)
  else
    match deserializeFrame buf with
    | some f => (.ok (some f), buf.drop (serializeFrame f).length)
    | none => (.error (), [])

/-- Frames whose field lengths fit a `u64` (always true of real Rust
vectors). -/
def wfFrame : ZaichikFrame → Prop
  | .publish topic payload =>
    topic.length < 2 ^ 64 ∧ payload.length < 2 ^ 64
  | .subscribe topic => topic.length < 2 ^ 64

end Codec

theorem lookupA_filter {α : Type} (k : String) (t : α) (p : String × α → Bool)
    (m : List (String × α)) (hm : lookupA k m = some t)
    (hp : p (k, t) = true) : lookupA k (m.filter p) = some t := by
  induction m with
  | nil => simp [lookupA] at hm
  | cons hd tl ih =>
    obtain ⟨k', v⟩ := hd
    by_cases hk : k' = k
    · subst hk
      simp only [lookupA, if_pos rfl] at hm
      obtain rfl : v = t := Option.some.injEq _ _ ▸ hm
      simp [List.filter, hp, lookupA]
    · simp only [lookupA, if_neg hk] at hm
      rcases hpv : p (k', v) with _ | _ <;>
        simp [List.filter, hpv, lookupA, hk, ih hm]

theorem lookupA_insertA_self {α : Type} (k : String) (v : α)
    (m : List (String × α)) : lookupA k (insertA k v m) = some v := by
  simp [insertA, lookupA]

theorem retainUnexpired_mem_sound (now : Nat) (l r : List TC.Message)
    (h : TC.retainUnexpired now l = some r) :
    ∀ m ∈ r, ∃ e, m.expiresAt = some e ∧ now < e := by
  induction l generalizing r with
  | nil =>
    simp only [TC.retainUnexpired, Option.some.injEq] at h
    subst h; simp
  | cons hd tl ih =>
    simp only [TC.retainUnexpired] at h
    rcases he : hd.expiresAt with _ | e
    · rw [he] at h; simp at h
    · rw [he] at h
      rcases hr : TC.retainUnexpired now tl with _ | r'
      · rw [hr] at h; simp at h
      · rw [hr] at h
        simp only [Option.map_some', Option.some.injEq] at h
        subst h
        intro m hm
        by_cases hlt : now < e
        · rw [if_pos hlt] at hm
          rcases List.mem_cons.mp hm with rfl | hm'
          · exact ⟨e, he, hlt⟩
          · exact ih r' hr m hm'
        · rw [if_neg hlt] at hm
          exact ih r' hr m hm

theorem retainUnexpired_mem_subset (now : Nat) (l r : List TC.Message)
    (h : TC.retainUnexpired now l = some r) : ∀ m ∈ r, m ∈ l := by
  induction l generalizing r with
  | nil =>
    simp only [TC.retainUnexpired, Option.some.injEq] at h
    subst h; simp
  | cons hd tl ih =>
    simp only [TC.retainUnexpired] at h
    rcases he : hd.expiresAt with _ | e
    · rw [he] at h; simp at h
    · rw [he] at h
      rcases hr : TC.retainUnexpired now tl with _ | r'
      · rw [hr] at h; simp at h
      · rw [hr] at h
        simp only [Option.map_some', Option.some.injEq] at h
        subst h
        intro m hm
        by_cases hlt : now < e
        · rw [if_pos hlt] at hm
          rcases List.mem_cons.mp hm with rfl | hm'
          · exact List.mem_cons_self _ _
          · exact List.mem_cons_of_mem _ (ih r' hr m hm')
        · rw [if_neg hlt] at hm
          exact List.mem_cons_of_mem _ (ih r' hr m hm)

theorem retainUnexpired_total (now : Nat) (l : List TC.Message)
    (h : ∀ m ∈ l, m.expiresAt.isSome = true) :
    (TC.retainUnexpired now l).isSome = true := by
  induction l with
  | nil => simp [TC.retainUnexpired]
  | cons hd tl ih =>
    have hhd := h hd (List.mem_cons_self _ _)
    rcases he : hd.expiresAt with _ | e
    · rw [he] at hhd; simp at hhd
    · have htl := ih fun m hm => h m (List.mem_cons_of_mem _ hm)
      rcases hr : TC.retainUnexpired now tl with _ | r'
      · rw [hr] at htl; simp at htl
      · simp [TC.retainUnexpired, he, hr]

theorem prePublish_settings (tc : TC.TopicController) (key : Option String)
    (payload : List Nat) (receivedAt now : Nat) :
    (TC.prePublish tc key payload receivedAt now).settings = tc.settings := by
  simp only [TC.prePublish]
  split <;> rfl

theorem prePublish_name (tc : TC.TopicController) (key : Option String)
    (payload : List Nat) (receivedAt now : Nat) :
    (TC.prePublish tc key payload receivedAt now).name = tc.name := by
  simp only [TC.prePublish]
  split <;> rfl

theorem prePublish_compactionMap (tc : TC.TopicController)
    (key : Option String) (payload : List Nat) (receivedAt now : Nat) :
    (TC.prePublish tc key payload receivedAt now).compactionMap =
      (TC.dupCheck tc
        (TC.publishedMessage tc.settings key payload receivedAt) now).2 := by
  simp only [TC.prePublish]
  split <;> rfl

theorem publish_spec (tc : TC.TopicController) (key : Option String)
    (payload : List Nat) (receivedAt now : Nat) (tc' : TC.TopicController)
    (h : tc.publish key payload receivedAt now = some tc') :
    ∃ buffer,
      TC.cleanOutdatedRetainedMessages tc.settings
        (TC.prePublish tc key payload receivedAt now).retainedBuffer now =
        some buffer ∧
      tc'.name = tc.name ∧
      tc'.settings = tc.settings ∧
      tc'.broadcastLog =
        (TC.prePublish tc key payload receivedAt now).broadcastLog ∧
      tc'.retainedBuffer = buffer ∧
      tc'.compactionMap =
        TC.cleanOutdatedCompactionKeys tc.settings
          (TC.prePublish tc key payload receivedAt now).compactionMap now := by
  simp only [TC.TopicController.publish, prePublish_settings] at h
  rcases hclean : TC.cleanOutdatedRetainedMessages tc.settings
      (TC.prePublish tc key payload receivedAt now).retainedBuffer now
    with _ | buffer
  · rw [hclean] at h; simp at h
  · rw [hclean] at h
    simp only [Option.some.injEq] at h
    subst h
    exact ⟨buffer, rfl, prePublish_name tc key payload receivedAt now,
      rfl, rfl, rfl, rfl⟩

theorem prePublish_retainedBuffer_mem (tc : TC.TopicController)
    (key : Option String) (payload : List Nat) (receivedAt now : Nat) :
    ∀ m ∈ (TC.prePublish tc key payload receivedAt now).retainedBuffer,
      m ∈ tc.retainedBuffer ∨
        m = TC.publishedMessage tc.settings key payload receivedAt := by
  simp only [TC.prePublish]
  split
  · intro m hm; exact Or.inl hm
  · split
    · intro m hm
      rcases List.mem_append.mp hm with hm' | hm'
      · exact Or.inl hm'
      · exact Or.inr (List.mem_singleton.mp hm')
    · intro m hm; exact Or.inl hm

theorem prePublish_retainedBuffer_no_retention (tc : TC.TopicController)
    (key : Option String) (payload : List Nat) (receivedAt now : Nat)
    (hr : tc.settings.retentionTtl = none) :
    (TC.prePublish tc key payload receivedAt now).retainedBuffer =
      tc.retainedBuffer := by
  simp only [TC.prePublish]
  split
  · rfl
  · simp [hr]

theorem prePublish_broadcastLog (tc : TC.TopicController)
    (key : Option String) (payload : List Nat) (receivedAt now : Nat) :
    (TC.prePublish tc key payload receivedAt now).broadcastLog =
        tc.broadcastLog ∨
      (TC.prePublish tc key payload receivedAt now).broadcastLog =
        tc.broadcastLog ++
          [TC.publishedMessage tc.settings key payload receivedAt] := by
  simp only [TC.prePublish]
  split
  · exact Or.inl rfl
  · exact Or.inr rfl

theorem publish_buffer_wellformed (tc : TC.TopicController)
    (key : Option String) (payload : List Nat) (receivedAt now : Nat)
    (tc' : TC.TopicController)
    (h : tc.publish key payload receivedAt now = some tc')
    (hwf : ∀ m ∈ tc.retainedBuffer, m.expiresAt.isSome = true) :
    ∀ m ∈ tc'.retainedBuffer, m.expiresAt.isSome = true := by
  obtain ⟨buffer, hclean, -, -, -, hbuf, -⟩ :=
    publish_spec tc key payload receivedAt now tc' h
  rw [hbuf]
  rcases hr : tc.settings.retentionTtl with _ | ttl
  · rw [TC.cleanOutdatedRetainedMessages, hr] at hclean
    simp only [Option.isSome_none, Bool.false_eq_true, if_false,
      Option.some.injEq] at hclean
    rw [← hclean, prePublish_retainedBuffer_no_retention tc key payload
      receivedAt now hr]
    exact hwf
  · rw [TC.cleanOutdatedRetainedMessages, hr] at hclean
    simp only [Option.isSome_some, if_pos] at hclean
    intro m hm
    obtain ⟨e, he, -⟩ := retainUnexpired_mem_sound now _ buffer hclean m hm
    simp [he]

theorem publish_total (tc : TC.TopicController) (key : Option String)
    (payload : List Nat) (receivedAt now : Nat)
    (hwf : ∀ m ∈ tc.retainedBuffer, m.expiresAt.isSome = true) :
    (tc.publish key payload receivedAt now).isSome = true := by
  simp only [TC.TopicController.publish, prePublish_settings]
  rcases hr : tc.settings.retentionTtl with _ | ttl
  · rw [TC.cleanOutdatedRetainedMessages, hr]
    simp
  · have hall : ∀ m ∈ (TC.prePublish tc key payload receivedAt
        now).retainedBuffer, m.expiresAt.isSome = true := by
      intro m hm
      rcases prePublish_retainedBuffer_mem tc key payload receivedAt now m hm
        with hm' | hm'
      · exact hwf m hm'
      · subst hm'
        simp [TC.publishedMessage, hr]
    have := retainUnexpired_total now _ hall
    rcases hres : TC.retainUnexpired now
        (TC.prePublish tc key payload receivedAt now).retainedBuffer
      with _ | buffer
    · rw [hres] at this; simp at this
    · rw [TC.cleanOutdatedRetainedMessages, hr]
      simp only [Option.isSome_some, if_pos, hres]

theorem reachable_buffer_wellformed (tc : TC.TopicController)
    (h : TC.Reachable tc) :
    ∀ m ∈ tc.retainedBuffer, m.expiresAt.isSome = true := by
  induction h with
  | new name retentionTtl compactionWindow bufferSize =>
    simp [TC.TopicController.new]
  | publish tc tc' key payload receivedAt now hreach heq ih =>
    exact publish_buffer_wellformed tc key payload receivedAt now tc' heq ih

/-- C9: in every reachable controller state every message in
`retained_buffer` has `expires_at` present, hence the
`expires_at.unwrap()` evaluated during pruning never panics and
`publish` always succeeds. -/
theorem C9_retained_buffer_expiry_present (tc : TC.TopicController)
    (h : TC.Reachable tc) :
    (∀ m ∈ tc.retainedBuffer, m.expiresAt.isSome = true) ∧
    (∀ now, (TC.cleanOutdatedRetainedMessages tc.settings tc.retainedBuffer
      now).isSome = true) ∧
    (∀ key payload receivedAt now,
      (tc.publish key payload receivedAt now).isSome = true) := by
  have hwf := reachable_buffer_wellformed tc h
  refine ⟨hwf, ?_, ?_⟩
  · intro now
    rw [TC.cleanOutdatedRetainedMessages]
    split
    · exact retainUnexpired_total now _ hwf
    · simp
  · intro key payload receivedAt now
    exact publish_total tc key payload receivedAt now hwf

/-- Witness for C9 at a freshly created controller. -/
theorem C9_retained_buffer_expiry_present_witness :
    (∀ m ∈ (TC.TopicController.new "t" 5 7 0).retainedBuffer,
      m.expiresAt.isSome = true) ∧
    (∀ now, (TC.cleanOutdatedRetainedMessages
      (TC.TopicController.new "t" 5 7 0).settings
      (TC.TopicController.new "t" 5 7 0).retainedBuffer now).isSome = true) ∧
    (∀ key payload receivedAt now,
      ((TC.TopicController.new "t" 5 7 0).publish key payload receivedAt
        now).isSome = true) :=
  C9_retained_buffer_expiry_present (TC.TopicController.new "t" 5 7 0)
    (TC.Reachable.new "t" 5 7 0)

/-- C7: after every `publish` on a retention-enabled topic every entry
remaining in `retained_buffer` has `expires_at > now`, and after every
`publish` on a compaction-enabled topic `compaction_map` retains only
keys whose stored instant is within `compaction_window` of `now`. -/
theorem C7_publish_prunes (tc : TC.TopicController) (key : Option String)
    (payload : List Nat) (receivedAt now : Nat) (tc' : TC.TopicController)
    (h : tc.publish key payload receivedAt now = some tc') :
    (∀ ttl, tc.settings.retentionTtl = some ttl →
      ∀ m ∈ tc'.retainedBuffer, ∃ e, m.expiresAt = some e ∧ now < e) ∧
    (∀ w, tc.settings.compactionWindow = some w →
      ∀ p ∈ tc'.compactionMap, now ≤ p.2 + w) := by
  obtain ⟨buffer, hclean, -, -, -, hbuf, hmap⟩ :=
    publish_spec tc key payload receivedAt now tc' h
  constructor
  · intro ttl httl m hm
    rw [hbuf] at hm
    rw [TC.cleanOutdatedRetainedMessages, httl] at hclean
    simp only [Option.isSome_some, if_pos] at hclean
    exact retainUnexpired_mem_sound now _ buffer hclean m hm
  · intro w hw p hp
    rw [hmap] at hp
    rw [TC.cleanOutdatedCompactionKeys, hw] at hp
    have := (List.mem_filter.mp hp).2
    have hlt : ¬ (p.2 + w < now) := of_decide_eq_true this
    omega

/-- Witness for C7 at a concrete publish on a topic with retention 5 ms
and compaction 7 ms. -/
theorem C7_publish_prunes_witness :
    (∀ ttl, (TC.TopicController.new "t" 5 7 0).settings.retentionTtl =
        some ttl →
      ∀ m ∈ ({ name := "t", settings := ⟨some 5, some 7, 1000⟩,
               broadcastLog := [⟨some "k", [1], 0, some 5⟩],
               compactionMap := [("k", 0)],
               retainedBuffer := [⟨some "k", [1], 0, some 5⟩] } :
             TC.TopicController).retainedBuffer,
        ∃ e, m.expiresAt = some e ∧ 0 < e) ∧
    (∀ w, (TC.TopicController.new "t" 5 7 0).settings.compactionWindow =
        some w →
      ∀ p ∈ ({ name := "t", settings := ⟨some 5, some 7, 1000⟩,
               broadcastLog := [⟨some "k", [1], 0, some 5⟩],
               compactionMap := [("k", 0)],
               retainedBuffer := [⟨some "k", [1], 0, some 5⟩] } :
             TC.TopicController).compactionMap,
        0 ≤ p.2 + w) :=
  C7_publish_prunes (TC.TopicController.new "t" 5 7 0) (some "k") [1] 0 0
    { name := "t", settings := ⟨some 5, some 7, 1000⟩,
      broadcastLog := [⟨some "k", [1], 0, some 5⟩],
      compactionMap := [("k", 0)],
      retainedBuffer := [⟨some "k", [1], 0, some 5⟩] }
    (by decide)

theorem publish_log_extends (tc : TC.TopicController) (key : Option String)
    (payload : List Nat) (receivedAt now : Nat) (tc' : TC.TopicController)
    (h : tc.publish key payload receivedAt now = some tc') :
    ∃ l, tc'.broadcastLog = tc.broadcastLog ++ l := by
  obtain ⟨buffer, -, -, -, hlog, -, -⟩ :=
    publish_spec tc key payload receivedAt now tc' h
  rcases prePublish_broadcastLog tc key payload receivedAt now with hp | hp
  · exact ⟨[], by rw [hlog, hp, List.append_nil]⟩
  · exact ⟨[TC.publishedMessage tc.settings key payload receivedAt],
      by rw [hlog, hp]⟩

theorem publishMany_log_extends (reqs : List TC.PubReq) :
    ∀ tc tc' : TC.TopicController, TC.publishMany tc reqs = some tc' →
      ∃ sent, tc'.broadcastLog = tc.broadcastLog ++ sent := by
  induction reqs with
  | nil =>
    intro tc tc' h
    simp only [TC.publishMany, Option.some.injEq] at h
    exact ⟨[], by rw [← h, List.append_nil]⟩
  | cons r rest ih =>
    intro tc tc' h
    simp only [TC.publishMany] at h
    rcases hp : tc.publish r.key r.payload r.receivedAt r.now with _ | tcm
    · rw [hp] at h; simp at h
    · rw [hp] at h
      obtain ⟨sent', hsent'⟩ := ih tcm tc' h
      obtain ⟨l0, hl0⟩ :=
        publish_log_extends tc r.key r.payload r.receivedAt r.now tcm hp
      exact ⟨l0 ++ sent', by rw [hsent', hl0, List.append_assoc]⟩

/-- C3: `subscribe` yields first a snapshot (clone) of the current
`retained_buffer` and then exactly the messages subsequently sent to the
broadcast channel through a fresh receiver; messages broadcast before
the receiver was acquired never appear in the live part. -/
theorem C3_subscribe_snapshot_then_live (tc : TC.TopicController)
    (reqs : List TC.PubReq) (tc' : TC.TopicController)
    (h : TC.publishMany tc reqs = some tc') :
    tc.subscribe.snapshot = tc.retainedBuffer ∧
    ∃ sent, tc'.broadcastLog = tc.broadcastLog ++ sent ∧
      TC.subscriptionStream tc.subscribe tc' = tc.retainedBuffer ++ sent := by
  refine ⟨rfl, ?_⟩
  obtain ⟨sent, hsent⟩ := publishMany_log_extends reqs tc tc' h
  refine ⟨sent, hsent, ?_⟩
  rw [TC.subscriptionStream, TC.TopicController.subscribe, hsent]
  simp [List.drop_left]

/-- Witness for C3: one publish after subscribing to a topic with one
retained message. -/
theorem C3_subscribe_snapshot_then_live_witness :
    ({ name := "t", settings := ⟨some 10, none, 1000⟩,
       broadcastLog := [⟨none, [1], 0, some 10⟩], compactionMap := [],
       retainedBuffer := [⟨none, [1], 0, some 10⟩] } :
      TC.TopicController).subscribe.snapshot = [⟨none, [1], 0, some 10⟩] ∧
    ∃ sent,
      ({ name := "t", settings := ⟨some 10, none, 1000⟩,
         broadcastLog := [⟨none, [1], 0, some 10⟩, ⟨none, [2], 1, some 11⟩],
         compactionMap := [],
         retainedBuffer :=
           [⟨none, [1], 0, some 10⟩, ⟨none, [2], 1, some 11⟩] } :
        TC.TopicController).broadcastLog =
        [⟨none, [1], 0, some 10⟩] ++ sent ∧
      TC.subscriptionStream
        ({ name := "t", settings := ⟨some 10, none, 1000⟩,
           broadcastLog := [⟨none, [1], 0, some 10⟩], compactionMap := [],
           retainedBuffer := [⟨none, [1], 0, some 10⟩] } :
          TC.TopicController).subscribe
        { name := "t", settings := ⟨some 10, none, 1000⟩,
          broadcastLog := [⟨none, [1], 0, some 10⟩, ⟨none, [2], 1, some 11⟩],
          compactionMap := [],
          retainedBuffer :=
            [⟨none, [1], 0, some 10⟩, ⟨none, [2], 1, some 11⟩] } =
        [⟨none, [1], 0, some 10⟩] ++ sent :=
  C3_subscribe_snapshot_then_live
    { name := "t", settings := ⟨some 10, none, 1000⟩,
      broadcastLog := [⟨none, [1], 0, some 10⟩], compactionMap := [],
      retainedBuffer := [⟨none, [1], 0, some 10⟩] }
    [⟨none, [2], 1, 1⟩]
    { name := "t", settings := ⟨some 10, none, 1000⟩,
      broadcastLog := [⟨none, [1], 0, some 10⟩, ⟨none, [2], 1, some 11⟩],
      compactionMap := [],
      retainedBuffer := [⟨none, [1], 0, some 10⟩, ⟨none, [2], 1, some 11⟩] }
    (by decide)

/-- C4: the claim says repeated `CreateTopic` is a no-op keeping the
first creation's settings; the code's `TopicRegistry::add_topic`
unconditionally inserts, so a second creation overwrites the stored
settings (last-writer-wins), contradicting the claim. -/
theorem C4_create_topic_overwrites :
    lookupA "t"
      (Reg.addTopic (Reg.addTopic Reg.TopicRegistry.new "t" 7 0) "t" 0 5) =
      some (Reg.TopicSettings.new 0 5) ∧
    Reg.TopicSettings.new 0 5 ≠ Reg.TopicSettings.new 7 0 ∧
    lookupA "t"
      (Reg.addTopic (Reg.addTopic Reg.TopicRegistry.new "t" 7 0) "t" 0 5) ≠
      some (Reg.TopicSettings.new 7 0) := by
  refine ⟨by decide, by decide, by decide⟩

theorem retainUnexpired_none_of_mem (now : Nat) (l : List TC.Message)
    (m : TC.Message) (hm : m ∈ l) (he : m.expiresAt = none) :
    TC.retainUnexpired now l = none := by
  induction l with
  | nil => simp at hm
  | cons hd tl ih =>
    rcases List.mem_cons.mp hm with rfl | hm'
    · simp [TC.retainUnexpired, he]
    · rcases hhd : hd.expiresAt with _ | e
      · simp [TC.retainUnexpired, hhd]
      · simp [TC.retainUnexpired, hhd, ih hm']

theorem clean_mem_subset (settings : TC.TopicSettings)
    (buf buf' : List TC.Message) (now : Nat)
    (h : TC.cleanOutdatedRetainedMessages settings buf now = some buf') :
    ∀ m ∈ buf', m ∈ buf := by
  rw [TC.cleanOutdatedRetainedMessages] at h
  split at h
  · exact retainUnexpired_mem_subset now buf buf' h
  · simp only [Option.some.injEq] at h
    rw [← h]
    exact fun m hm => hm

/-- C2: on a compaction-enabled topic, a publish whose key is in the
compaction map with instant `t` and `now - t < compaction_window` is a
duplicate: nothing is sent to the broadcast channel, nothing is appended
to the retained buffer, and `t` is not updated; if the key is absent or
`now - t ≥ compaction_window` the map entry is set to `now` and the
message is fanned out; a message with no key is never a duplicate. -/
theorem C2_compaction_duplicate (tc : TC.TopicController)
    (key : Option String) (payload : List Nat) (receivedAt now w : Nat)
    (hw : tc.settings.compactionWindow = some w) (tc' : TC.TopicController)
    (h : tc.publish key payload receivedAt now = some tc') :
    (∀ k t, key = some k → lookupA k tc.compactionMap = some t →
      now - t < w →
        tc'.broadcastLog = tc.broadcastLog ∧
        (∀ m ∈ tc'.retainedBuffer, m ∈ tc.retainedBuffer) ∧
        lookupA k tc'.compactionMap = some t) ∧
    (∀ k, key = some k →
      (lookupA k tc.compactionMap = none ∨
        (∃ t, lookupA k tc.compactionMap = some t ∧ ¬ now - t < w)) →
        tc'.broadcastLog = tc.broadcastLog ++
          [TC.publishedMessage tc.settings key payload receivedAt] ∧
        lookupA k tc'.compactionMap = some now) ∧
    (key = none →
      tc'.broadcastLog = tc.broadcastLog ++
        [TC.publishedMessage tc.settings key payload receivedAt]) := by
  obtain ⟨buffer, hclean, -, -, hlog, hbuf, hmap⟩ :=
    publish_spec tc key payload receivedAt now tc' h
  refine ⟨?_, ?_, ?_⟩
  · intro k t hk hlook hlt
    subst hk
    have hd : TC.dupCheck tc
        (TC.publishedMessage tc.settings (some k) payload receivedAt) now =
        (true, tc.compactionMap) := by
      simp [TC.dupCheck, hw, TC.checkDuplicateAndUpdateCompactionMap,
        TC.publishedMessage, hlook, hlt]
    have hpre : TC.prePublish tc (some k) payload receivedAt now = tc := by
      simp [TC.prePublish, hd]
    rw [hpre] at hlog hclean
    rw [hpre] at hmap
    refine ⟨hlog, ?_, ?_⟩
    · rw [hbuf]
      exact clean_mem_subset tc.settings tc.retainedBuffer buffer now hclean
    · rw [hmap, TC.cleanOutdatedCompactionKeys, hw]
      exact lookupA_filter k t _ tc.compactionMap hlook
        (decide_eq_true (by omega))
  · intro k hk hcase
    subst hk
    have hd : TC.dupCheck tc
        (TC.publishedMessage tc.settings (some k) payload receivedAt) now =
        (false, insertA k now tc.compactionMap) := by
      rcases hcase with hnone | ⟨t, hsome, hge⟩
      · simp [TC.dupCheck, hw, TC.checkDuplicateAndUpdateCompactionMap,
          TC.publishedMessage, hnone]
      · simp [TC.dupCheck, hw, TC.checkDuplicateAndUpdateCompactionMap,
          TC.publishedMessage, hsome, hge]
    have hplog : (TC.prePublish tc (some k) payload receivedAt
        now).broadcastLog = tc.broadcastLog ++
          [TC.publishedMessage tc.settings (some k) payload receivedAt] := by
      simp [TC.prePublish, hd]
    have hpmap : (TC.prePublish tc (some k) payload receivedAt
        now).compactionMap = insertA k now tc.compactionMap := by
      simp [TC.prePublish, hd]
    refine ⟨by rw [hlog, hplog], ?_⟩
    rw [hmap, hpmap, TC.cleanOutdatedCompactionKeys, hw]
    exact lookupA_filter k now _ (insertA k now tc.compactionMap)
      (lookupA_insertA_self k now tc.compactionMap)
      (decide_eq_true (by omega))
  · intro hk
    subst hk
    have hd : TC.dupCheck tc
        (TC.publishedMessage tc.settings none payload receivedAt) now =
        (false, tc.compactionMap) := by
      simp [TC.dupCheck, hw, TC.checkDuplicateAndUpdateCompactionMap,
        TC.publishedMessage]
    have hplog : (TC.prePublish tc none payload receivedAt
        now).broadcastLog = tc.broadcastLog ++
          [TC.publishedMessage tc.settings none payload receivedAt] := by
      simp [TC.prePublish, hd]
    rw [hlog, hplog]

/-- Witness for C2: a duplicate publish on a compacting topic whose key
was last seen 3 ms ago within a 10 ms window. -/
theorem C2_compaction_duplicate_witness :
    (∀ k t, (some "k" : Option String) = some k →
      lookupA k [("k", 2)] = some t → 5 - t < 10 →
        ({ name := "t", settings := ⟨none, some 10, 1000⟩,
           broadcastLog := [], compactionMap := [("k", 2)],
           retainedBuffer := [] } : TC.TopicController).broadcastLog =
          ({ name := "t", settings := ⟨none, some 10, 1000⟩,
             broadcastLog := [], compactionMap := [("k", 2)],
             retainedBuffer := [] } : TC.TopicController).broadcastLog ∧
        (∀ m ∈ ({ name := "t", settings := ⟨none, some 10, 1000⟩,
                  broadcastLog := [], compactionMap := [("k", 2)],
                  retainedBuffer := [] } :
                TC.TopicController).retainedBuffer,
          m ∈ ({ name := "t", settings := ⟨none, some 10, 1000⟩,
                 broadcastLog := [], compactionMap := [("k", 2)],
                 retainedBuffer := [] } :
               TC.TopicController).retainedBuffer) ∧
        lookupA k ({ name := "t", settings := ⟨none, some 10, 1000⟩,
                     broadcastLog := [], compactionMap := [("k", 2)],
                     retainedBuffer := [] } :
                   TC.TopicController).compactionMap = some t) ∧
    (∀ k, (some "k" : Option String) = some k →
      (lookupA k [("k", 2)] = none ∨
        (∃ t, lookupA k [("k", 2)] = some t ∧ ¬ 5 - t < 10)) →
        ({ name := "t", settings := ⟨none, some 10, 1000⟩,
           broadcastLog := [], compactionMap := [("k", 2)],
           retainedBuffer := [] } : TC.TopicController).broadcastLog =
          [] ++ [TC.publishedMessage ⟨none, some 10, 1000⟩ (some "k") [9] 5] ∧
        lookupA k ({ name := "t", settings := ⟨none, some 10, 1000⟩,
                     broadcastLog := [], compactionMap := [("k", 2)],
                     retainedBuffer := [] } :
                   TC.TopicController).compactionMap = some 5) ∧
    ((some "k" : Option String) = none →
      ({ name := "t", settings := ⟨none, some 10, 1000⟩,
         broadcastLog := [], compactionMap := [("k", 2)],
         retainedBuffer := [] } : TC.TopicController).broadcastLog =
        [] ++ [TC.publishedMessage ⟨none, some 10, 1000⟩ (some "k") [9] 5]) :=
  C2_compaction_duplicate
    { name := "t", settings := ⟨none, some 10, 1000⟩, broadcastLog := [],
      compactionMap := [("k", 2)], retainedBuffer := [] }
    (some "k") [9] 5 5 10 (by decide)
    { name := "t", settings := ⟨none, some 10, 1000⟩, broadcastLog := [],
      compactionMap := [("k", 2)], retainedBuffer := [] }
    (by decide)

theorem nextRec_empty_sub (reg : Reg.TopicRegistry) (now : Nat) :
    ∀ (buf : List SM.Message) (dedupMap : List (String × Nat)),
      SM.nextRec reg [] now buf dedupMap = (none, [], dedupMap) := by
  intro buf
  induction buf with
  | nil => intro dedupMap; rfl
  | cons m rest ih =>
    intro dedupMap
    rcases hl : lookupA m.topic reg with _ | s <;>
      simp [SM.nextRec, hl, List.contains, ih]

theorem checkDup_true_key (dedupMap : List (String × Nat)) (m : SM.Message)
    (ttl now : Nat)
    (h : (SM.checkDuplicateAndUpdateDedupMap dedupMap m ttl now).1 = true) :
    m.key.isSome = true := by
  rcases hk : m.key with _ | k
  · rw [SM.checkDuplicateAndUpdateDedupMap] at h
    rw [hk] at h
    simp at h
  · rfl

theorem nextRec_cons (reg : Reg.TopicRegistry) (sub : List String)
    (now : Nat) (m : SM.Message) (rest : List SM.Message)
    (dedupMap : List (String × Nat)) :
    SM.nextRec reg sub now (m :: rest) dedupMap =
      match lookupA m.topic reg with
      | none => SM.nextRec reg sub now rest dedupMap
      | some settings =>
        if ! sub.contains m.topic ||
            (match settings.retentionTtl with
             | some ttl => SM.messageIsOutOfDate m ttl now
             | none => false) then
          SM.nextRec reg sub now rest dedupMap
        else
          match settings.dedupTtl with
          | none => (some m, rest, dedupMap)
          | some ttl =>
            if (SM.checkDuplicateAndUpdateDedupMap dedupMap m ttl now).1 then
              SM.nextRec reg sub now rest
                (SM.checkDuplicateAndUpdateDedupMap dedupMap m ttl now).2
            else (some m, rest,
              (SM.checkDuplicateAndUpdateDedupMap dedupMap m ttl now).2) :=
  rfl

theorem nextRec_decomp (reg : Reg.TopicRegistry) (sub : List String)
    (now : Nat) :
    ∀ (buf : List SM.Message) (dedupMap : List (String × Nat)),
      ∃ dropped,
        buf = dropped ++ (SM.nextRec reg sub now buf dedupMap).1.toList ++
          (SM.nextRec reg sub now buf dedupMap).2.1 ∧
        ((SM.nextRec reg sub now buf dedupMap).1 = none →
          (SM.nextRec reg sub now buf dedupMap).2.1 = []) ∧
        ∀ d ∈ dropped, SM.droppedReason reg sub now d := by
  intro buf
  induction buf with
  | nil =>
    intro dedupMap
    exact ⟨[], rfl, fun _ => rfl, by simp⟩
  | cons m rest ih =>
    intro dedupMap
    rcases hl : lookupA m.topic reg with _ | s
    · obtain ⟨dropped, h1, h2, h3⟩ := ih dedupMap
      have he : SM.nextRec reg sub now (m :: rest) dedupMap =
          SM.nextRec reg sub now rest dedupMap := by
        rw [nextRec_cons, hl]
      rw [he]
      refine ⟨m :: dropped, by rw [List.cons_append, List.cons_append, ← h1], h2, ?_⟩
      intro d hd
      rcases List.mem_cons.mp hd with rfl | hd'
      · exact Or.inl hl
      · exact h3 d hd'
    · rcases hcont : sub.contains m.topic with _ | _
      · have he : SM.nextRec reg sub now (m :: rest) dedupMap =
            SM.nextRec reg sub now rest dedupMap := by
          rw [nextRec_cons, hl]
          dsimp only
          rw [hcont]
          rfl
        obtain ⟨dropped, h1, h2, h3⟩ := ih dedupMap
        rw [he]
        refine ⟨m :: dropped, by rw [List.cons_append, List.cons_append, ← h1], h2, ?_⟩
        intro d hd
        rcases List.mem_cons.mp hd with rfl | hd'
        · exact Or.inr (Or.inl hcont)
        · exact h3 d hd'
      · rcases hood : (match s.retentionTtl with
            | some ttl => SM.messageIsOutOfDate m ttl now
            | none => false) with _ | _
        · rcases hdt : s.dedupTtl with _ | ttl
          · have he : SM.nextRec reg sub now (m :: rest) dedupMap =
                (some m, rest, dedupMap) := by
              rw [nextRec_cons, hl]
              dsimp only
              rw [hcont, hood, hdt]
              rfl
            rw [he]
            exact ⟨[], rfl, by simp, by simp⟩
          · rcases hr : (SM.checkDuplicateAndUpdateDedupMap dedupMap m ttl
                now).1 with _ | _
            · have he : SM.nextRec reg sub now (m :: rest) dedupMap =
                  (some m, rest,
                    (SM.checkDuplicateAndUpdateDedupMap dedupMap m ttl
                      now).2) := by
                rw [nextRec_cons, hl]
                dsimp only
                rw [hcont, hood, hdt]
                dsimp only
                rw [hr]
                rfl
              rw [he]
              exact ⟨[], rfl, by simp, by simp⟩
            · have he : SM.nextRec reg sub now (m :: rest) dedupMap =
                  SM.nextRec reg sub now rest
                    (SM.checkDuplicateAndUpdateDedupMap dedupMap m ttl
                      now).2 := by
                rw [nextRec_cons, hl]
                dsimp only
                rw [hcont, hood, hdt]
                dsimp only
                rw [hr]
                rfl
              obtain ⟨dropped, h1, h2, h3⟩ :=
                ih (SM.checkDuplicateAndUpdateDedupMap dedupMap m ttl now).2
              rw [he]
              refine ⟨m :: dropped, by rw [List.cons_append, List.cons_append, ← h1], h2, ?_⟩
              intro d hd
              rcases List.mem_cons.mp hd with rfl | hd'
              · exact Or.inr (Or.inr (Or.inr
                  ⟨s, ttl, hl, hdt, checkDup_true_key dedupMap d ttl now hr⟩))
              · exact h3 d hd'
        · have he : SM.nextRec reg sub now (m :: rest) dedupMap =
              SM.nextRec reg sub now rest dedupMap := by
            rw [nextRec_cons, hl]
            dsimp only
            rw [hcont, hood]
            rfl
          obtain ⟨dropped, h1, h2, h3⟩ := ih dedupMap
          rw [he]
          refine ⟨m :: dropped, by rw [List.cons_append, List.cons_append, ← h1], h2, ?_⟩
          intro d hd
          rcases List.mem_cons.mp hd with rfl | hd'
          · rcases hrt : s.retentionTtl with _ | ttl
            · rw [hrt] at hood; simp at hood
            · rw [hrt] at hood
              exact Or.inr (Or.inr (Or.inl ⟨s, ttl, hl, hrt, hood⟩))
          · exact h3 d hd'

theorem next_buffer_count (mb : SM.MessagesBuffer) (sub : List String)
    (reg : Reg.TopicRegistry) (now : Nat) (res : Option SM.Message)
    (mb' : SM.MessagesBuffer) (h : mb.next sub reg now = (res, mb'))
    (m : SM.Message) :
    res.toList.count m + mb'.buffer.count m ≤ mb.buffer.count m := by
  obtain ⟨dropped, h1, -, -⟩ := nextRec_decomp reg sub now mb.buffer mb.dedupMap
  rcases hr : SM.nextRec reg sub now mb.buffer mb.dedupMap with ⟨res0, buf0, μ0⟩
  rw [SM.MessagesBuffer.next, hr] at h
  dsimp only at h
  simp only [Prod.mk.injEq] at h
  obtain ⟨hres, hmb'⟩ := h
  rw [hr] at h1
  dsimp only at h1
  have hbuf' : mb'.buffer = buf0 := by rw [← hmb']
  rw [← hres, hbuf', h1, List.count_append, List.count_append]
  omega

theorem runBuffer_count (ops : List SM.BufOp) :
    ∀ (mb : SM.MessagesBuffer) (m : SM.Message),
      (SM.runBuffer mb ops).count m ≤
        mb.buffer.count m + (SM.pushedOf ops).count m := by
  induction ops with
  | nil => intro mb m; simp [SM.runBuffer, SM.pushedOf]
  | cons op rest ih =>
    intro mb m
    cases op with
    | push m0 =>
      have := ih (mb.queueMessage m0) m
      simp only [SM.runBuffer, SM.pushedOf]
      simp only [SM.MessagesBuffer.queueMessage, List.count_append,
        List.count_cons, List.count_nil] at this ⊢
      omega
    | pull reg sub now =>
      rcases hnext : mb.next sub reg now with ⟨res, mb'⟩
      have hbound := next_buffer_count mb sub reg now res mb' hnext m
      have hrest := ih mb' m
      simp only [SM.runBuffer, SM.pushedOf, hnext, List.count_append]
      omega

/-- C10: every call to `MessagesBuffer::next` permanently removes each
examined-and-filtered message from the per-connection buffer: the old
buffer splits into the dropped messages, the delivered one (if any) and
the remaining buffer, each dropped message was filtered for one of the
four reasons (no registry entry, not subscribed, out of date, dedup
drop), and no sequence of later buffer operations can deliver more
occurrences of a message than remain in the buffer or are newly
queued. -/
theorem C10_next_discards (reg : Reg.TopicRegistry) (sub : List String)
    (now : Nat) (mb : SM.MessagesBuffer) (res : Option SM.Message)
    (mb' : SM.MessagesBuffer) (h : mb.next sub reg now = (res, mb')) :
    (∃ dropped,
      mb.buffer = dropped ++ res.toList ++ mb'.buffer ∧
      (res = none → mb'.buffer = []) ∧
      ∀ d ∈ dropped, SM.droppedReason reg sub now d) ∧
    (∀ (ops : List SM.BufOp) (m : SM.Message),
      (SM.runBuffer mb' ops).count m ≤
        mb'.buffer.count m + (SM.pushedOf ops).count m) := by
  obtain ⟨dropped, h1, h2, h3⟩ := nextRec_decomp reg sub now mb.buffer mb.dedupMap
  rcases hr : SM.nextRec reg sub now mb.buffer mb.dedupMap with ⟨res0, buf0, μ0⟩
  rw [SM.MessagesBuffer.next, hr] at h
  dsimp only at h
  simp only [Prod.mk.injEq] at h
  obtain ⟨hres, hmb'⟩ := h
  rw [hr] at h1 h2
  dsimp only at h1 h2
  have hbuf' : mb'.buffer = buf0 := by rw [← hmb']
  constructor
  · refine ⟨dropped, ?_, ?_, h3⟩
    · rw [hbuf', ← hres]; exact h1
    · intro hres0; rw [hbuf']; exact h2 (by rw [hres]; exact hres0)
  · intro ops m
    exact runBuffer_count ops mb' m

/-- Witness for C10: a buffer holding a message on an unregistered topic
followed by a deliverable one. -/
theorem C10_next_discards_witness :
    (∃ dropped,
      [(⟨"u", none, [1], 0, 0⟩ : SM.Message), ⟨"t", none, [2], 0, 0⟩] =
        dropped ++ (some (⟨"t", none, [2], 0, 0⟩ : SM.Message)).toList ++
          (SM.MessagesBuffer.mk [] []).buffer ∧
      ((some (⟨"t", none, [2], 0, 0⟩ : SM.Message) = none) →
        (SM.MessagesBuffer.mk [] []).buffer = []) ∧
      ∀ d ∈ dropped,
        SM.droppedReason [("t", ⟨none, none⟩)] ["t"] 0 d) ∧
    (∀ (ops : List SM.BufOp) (m : SM.Message),
      (SM.runBuffer (SM.MessagesBuffer.mk [] []) ops).count m ≤
        (SM.MessagesBuffer.mk [] []).buffer.count m +
          (SM.pushedOf ops).count m) :=
  C10_next_discards [("t", ⟨none, none⟩)] ["t"] 0
    ⟨[⟨"u", none, [1], 0, 0⟩, ⟨"t", none, [2], 0, 0⟩], []⟩
    (some ⟨"t", none, [2], 0, 0⟩) ⟨[], []⟩ (by decide)

theorem step_closed (st : SM.ConnState) (inp : SM.Input)
    (hc : st.closed = true) : SM.step st inp = (st, none) := by
  simp [SM.step, hc]

theorem step_open (st : SM.ConnState) (inp : SM.Input)
    (hc : st.closed = false) :
    SM.step st inp =
      (if (if SM.peerIsMe inp then SM.handleFrame st inp.frame inp.now
           else st).closed = true
       then ((if SM.peerIsMe inp then SM.handleFrame st inp.frame inp.now
              else st), none)
       else SM.deliverPhase
         (if SM.peerIsMe inp then SM.handleFrame st inp.frame inp.now else st)
         inp.now) := by
  simp [SM.step, hc]

theorem deliverPhase_out_some_not_waiting (st : SM.ConnState) (now : Nat)
    (st' : SM.ConnState) (out : Option SM.Message)
    (h : SM.deliverPhase st now = (st', out)) (hsome : out.isSome = true) :
    st'.waitingForNextMessage = false := by
  simp only [SM.deliverPhase] at h
  split at h
  · split at h
    · cases h; rfl
    · cases h; simp at hsome
  · cases h; simp at hsome

theorem deliverPhase_not_waiting (st : SM.ConnState) (now : Nat)
    (hw : st.waitingForNextMessage = false) :
    SM.deliverPhase st now = (st, none) := by
  simp [SM.deliverPhase, hw]

theorem step_out_some_not_waiting (st : SM.ConnState) (inp : SM.Input)
    (st' : SM.ConnState) (out : Option SM.Message)
    (h : SM.step st inp = (st', out)) (hsome : out.isSome = true) :
    st'.waitingForNextMessage = false := by
  by_cases hc : st.closed = true
  · rw [step_closed st inp hc] at h
    cases h; simp at hsome
  · rw [step_open st inp (Bool.eq_false_iff.mpr hc)] at h
    set st1 := if SM.peerIsMe inp then SM.handleFrame st inp.frame inp.now
      else st with hdef
    split at h
    · injection h with h1 h2
      rw [← h2] at hsome
      simp at hsome
    · exact deliverPhase_out_some_not_waiting _ _ _ _ h hsome

theorem step_no_rearm (st : SM.ConnState) (inp : SM.Input)
    (hw : st.waitingForNextMessage = false) (hr : SM.rearms inp = false) :
    (SM.step st inp).1.waitingForNextMessage = false ∧
    (SM.step st inp).2 = none := by
  have hst1 : (if SM.peerIsMe inp then
      SM.handleFrame st inp.frame inp.now else st).waitingForNextMessage =
      false := by
    by_cases hp : SM.peerIsMe inp = true
    · rw [if_pos hp]
      rcases hf : inp.frame with ⟨t, rt, dt⟩ | t | t | ⟨t, k, p⟩ | _ | _
      · simp [SM.handleFrame, hw]
      · simp [SM.rearms, hp, hf] at hr
      · simp [SM.handleFrame, hw]
      · simp [SM.handleFrame, hw]
      · simp [SM.rearms, hp, hf] at hr
      · simp [SM.handleFrame, hw]
    · rw [if_neg hp]
      exact hw
  by_cases hc : st.closed = true
  · rw [step_closed st inp hc]
    exact ⟨hw, rfl⟩
  · rw [step_open st inp (Bool.eq_false_iff.mpr hc)]
    set st1 := if SM.peerIsMe inp then SM.handleFrame st inp.frame inp.now
      else st with hdef
    split
    · exact ⟨hst1, rfl⟩
    · rw [deliverPhase_not_waiting st1 inp.now hst1]
      exact ⟨hst1, rfl⟩

theorem run_no_rearm (inputs : List SM.Input) : ∀ st : SM.ConnState,
    st.waitingForNextMessage = false →
    (∀ inp ∈ inputs, SM.rearms inp = false) →
    (SM.runState st inputs).waitingForNextMessage = false ∧
    ∀ o ∈ SM.runOutputs st inputs, o = none := by
  induction inputs with
  | nil =>
    intro st hw _
    exact ⟨hw, by simp [SM.runOutputs]⟩
  | cons inp rest ih =>
    intro st hw hall
    obtain ⟨hw1, hout⟩ :=
      step_no_rearm st inp hw (hall inp (List.mem_cons_self _ _))
    obtain ⟨hwf, hrest⟩ :=
      ih (SM.step st inp).1 hw1 (fun i hi => hall i (List.mem_cons_of_mem _ hi))
    refine ⟨hwf, ?_⟩
    intro o ho
    simp only [SM.runOutputs, List.mem_cons] at ho
    rcases ho with rfl | ho'
    · exact hout
    · exact hrest o ho'

/-- C1 (amended): a topic message is delivered only while
`waiting_for_next_message` is true, a successful delivery sets the flag
to false, and only a `Commit` (idempotently) or a `Subscribe` from this
client sets it back to true; hence between any two successive
broker-to-client `Publish` frames on one connection the broker received
from that client a `Commit` frame or a `Subscribe` frame (a first
subscription also re-arms readiness). -/
theorem C1_commit_or_subscribe_between_deliveries (st : SM.ConnState)
    (inp1 : SM.Input) (mid : List SM.Input) (inp2 : SM.Input)
    (h1 : (SM.step st inp1).2.isSome = true)
    (_hmid : ∀ o ∈ SM.runOutputs (SM.step st inp1).1 mid, o = none)
    (h2 : (SM.step (SM.runState (SM.step st inp1).1 mid) inp2).2.isSome =
      true) :
    ∃ inp ∈ mid ++ [inp2], SM.rearms inp = true := by
  by_contra hno
  push_neg at hno
  have hall : ∀ inp ∈ mid, SM.rearms inp = false := by
    intro i hi
    have := hno i (List.mem_append_left _ hi)
    exact Bool.eq_false_iff.mpr this
  have hrearm2 : SM.rearms inp2 = false := by
    have := hno inp2 (by simp)
    exact Bool.eq_false_iff.mpr this
  have hw1 : (SM.step st inp1).1.waitingForNextMessage = false := by
    rcases hstep : SM.step st inp1 with ⟨st', out⟩
    exact step_out_some_not_waiting st inp1 st' out hstep
      (by rw [hstep] at h1; exact h1)
  obtain ⟨hwf, -⟩ := run_no_rearm mid (SM.step st inp1).1 hw1 hall
  obtain ⟨-, hout2⟩ :=
    step_no_rearm (SM.runState (SM.step st inp1).1 mid) inp2 hwf hrearm2
  rw [hout2] at h2
  simp at h2

/-- Witness for C1 (amended): deliver, unsubscribe, re-subscribe,
deliver again — the re-arming input is the `Subscribe`. -/
theorem C1_commit_or_subscribe_between_deliveries_witness :
    ∃ inp ∈ [(⟨SM.CFrame.unsubscribe "t", true, 2⟩ : SM.Input),
             ⟨SM.CFrame.subscribe "t", true, 3⟩,
             ⟨SM.CFrame.publish "t" none [2], true, 4⟩],
      SM.rearms inp = true :=
  C1_commit_or_subscribe_between_deliveries
    ⟨["t"], SM.MessagesBuffer.new, [("t", ⟨none, none⟩)], true, false⟩
    ⟨SM.CFrame.publish "t" none [1], true, 1⟩
    [⟨SM.CFrame.unsubscribe "t", true, 2⟩, ⟨SM.CFrame.subscribe "t", true, 3⟩]
    ⟨SM.CFrame.publish "t" none [2], true, 4⟩
    (by decide) (by decide) (by decide)

/-- C1 counterexample: the claim as stated requires a `Commit` between
any two successive deliveries, but a run that delivers, unsubscribes,
re-subscribes and publishes again yields two deliveries with no `Commit`
frame anywhere in the run. -/
theorem C1_counterexample :
    ¬ SM.commitSeparated SM.initState
      [⟨SM.CFrame.subscribe "t", true, 0⟩,
       ⟨SM.CFrame.publish "t" none [1], true, 1⟩,
       ⟨SM.CFrame.unsubscribe "t", true, 2⟩,
       ⟨SM.CFrame.subscribe "t", true, 3⟩,
       ⟨SM.CFrame.publish "t" none [2], true, 4⟩] := by
  intro h
  obtain ⟨k, hk5, hk1, hc⟩ :=
    h 4 (by decide) 1 (by decide) (by decide) (by decide) (by decide)
  interval_cases k <;> revert hc <;> decide

theorem bytesLE_length (w : Nat) : ∀ n, (Codec.bytesLE w n).length = w := by
  induction w with
  | zero => intro n; rfl
  | succ w ih =>
    intro n
    simp [Codec.bytesLE, ih]

theorem valLE_bytesLE (w : Nat) : ∀ n, n < 256 ^ w →
    Codec.valLE (Codec.bytesLE w n) = n := by
  induction w with
  | zero =>
    intro n h
    simp only [pow_zero, Nat.lt_one_iff] at h
    subst h
    rfl
  | succ w ih =>
    intro n h
    have hdiv : n / 256 < 256 ^ w := by
      apply Nat.div_lt_of_lt_mul
      rw [pow_succ] at h
      omega
    simp only [Codec.bytesLE, Codec.valLE, ih (n / 256) hdiv]
    omega

theorem readN_exact (l rest : List Nat) :
    Codec.readN l.length (l ++ rest) = some (l, rest) := by
  rw [Codec.readN, if_pos (by simp)]
  rw [List.take_left, List.drop_left]

theorem readN_bytesLE (w n : Nat) (rest : List Nat) :
    Codec.readN w (Codec.bytesLE w n ++ rest) =
      some (Codec.bytesLE w n, rest) := by
  have := readN_exact (Codec.bytesLE w n) rest
  rwa [bytesLE_length] at this

theorem readLenField_exact (field rest : List Nat)
    (h : field.length < 2 ^ 64) :
    Codec.readLenField (Codec.bytesLE 8 field.length ++ (field ++ rest)) =
      some (field, rest) := by
  rw [Codec.readLenField, readN_bytesLE]
  dsimp only
  have hval : Codec.valLE (Codec.bytesLE 8 field.length) = field.length :=
    valLE_bytesLE 8 field.length (by norm_num at h ⊢; omega)
  rw [hval, readN_exact]

theorem deserializeFrame_serialize (f : Codec.ZaichikFrame)
    (rest : List Nat) (h : Codec.wfFrame f) :
    Codec.deserializeFrame (Codec.serializeFrame f ++ rest) = some f := by
  cases f with
  | publish topic payload =>
    simp only [Codec.wfFrame] at h
    obtain ⟨ht, hp⟩ := h
    simp only [Codec.serializeFrame, List.append_assoc]
    rw [Codec.deserializeFrame, readN_bytesLE]
    dsimp only
    have h0 : Codec.valLE (Codec.bytesLE 4 0) = 0 := by decide
    rw [h0]
    dsimp only
    rw [readLenField_exact topic _ ht]
    dsimp only
    rw [readLenField_exact payload rest hp]
  | subscribe topic =>
    simp only [Codec.wfFrame] at h
    simp only [Codec.serializeFrame, List.append_assoc]
    rw [Codec.deserializeFrame, readN_bytesLE]
    dsimp only
    have h1 : Codec.valLE (Codec.bytesLE 4 1) = 1 := by decide
    rw [h1]
    dsimp only
    rw [readLenField_exact topic rest h]
    rfl

/-- C8 (amended): the decoder consumes exactly one frame per call,
advancing the buffer by that frame's serialized size; an *empty* buffer
yields the "need more" result; a *nonempty* buffer that fails to
deserialize — including one holding only a strict prefix of a complete
frame — is cleared and a decode error is returned. -/
theorem C8_decode_behaviour :
    (Codec.decode [] = (Except.ok none, [])) ∧
    (∀ (f : Codec.ZaichikFrame) (rest : List Nat), Codec.wfFrame f →
      Codec.decode (Codec.serializeFrame f ++ rest) =
        (Except.ok (some f), rest)) ∧
    (∀ buf : List Nat, buf ≠ [] → Codec.deserializeFrame buf = none →
      Codec.decode buf = (Except.error (), [])) := by
  refine ⟨rfl, ?_, ?_⟩
  · intro f rest hwf
    have hne : (Codec.serializeFrame f ++ rest).isEmpty = false := by
      cases f <;> rfl
    rw [Codec.decode, hne]
    simp only [Bool.false_eq_true, if_false]
    rw [deserializeFrame_serialize f rest hwf]
    dsimp only
    rw [List.drop_left]
  · intro buf hne hdeser
    have hemp : buf.isEmpty = false := by
      cases buf
      · exact absurd rfl hne
      · rfl
    rw [Codec.decode, hemp]
    simp only [Bool.false_eq_true, if_false]
    rw [hdeser]

/-- Witness for C8 (amended): decoding one serialized `Subscribe` frame
with two trailing bytes consumes exactly the frame and leaves the
trailing bytes. -/
theorem C8_decode_behaviour_witness :
    Codec.decode (Codec.serializeFrame (Codec.ZaichikFrame.subscribe [97]) ++
        [7, 9]) =
      (Except.ok (some (Codec.ZaichikFrame.subscribe [97])), [7, 9]) :=
  C8_decode_behaviour.2.1 (Codec.ZaichikFrame.subscribe [97]) [7, 9]
    (by norm_num [Codec.wfFrame])

/-- C8 counterexample: the claim says a buffer holding fewer bytes than a
complete frame yields "need more" with the buffer left intact; on the
code, the nonempty two-byte strict prefix `[0, 0]` of a complete
`Publish` frame is cleared and a decode error is returned instead. -/
theorem C8_counterexample :
    List.take 2
      (Codec.serializeFrame (Codec.ZaichikFrame.publish [] [])) = [0, 0] ∧
    2 < (Codec.serializeFrame (Codec.ZaichikFrame.publish [] [])).length ∧
    Codec.decode [0, 0] = (Except.error (), []) ∧
    Codec.decode [0, 0] ≠ (Except.ok none, [0, 0]) := by
  refine ⟨rfl, by decide, rfl, ?_⟩
  intro h
  rw [show Codec.decode [0, 0] = (Except.error (), []) from rfl] at h
  injection h with h1 h2
  exact Except.noConfusion h1

/-- C5 counterexample: the claim says that when `Unsubscribe` empties the
subscription set it sets `waiting_for_next_message` to `false`; on the
code, unsubscribing the last topic of a ready client leaves the flag
`true`. -/
theorem C5_counterexample :
    (SM.handleFrame
      ⟨["t"], SM.MessagesBuffer.new, [("t", ⟨none, none⟩)], true, false⟩
      (SM.CFrame.unsubscribe "t") 2).subscribedOn = [] ∧
    (SM.handleFrame
      ⟨["t"], SM.MessagesBuffer.new, [("t", ⟨none, none⟩)], true, false⟩
      (SM.CFrame.unsubscribe "t") 2).waitingForNextMessage = true := by
  constructor <;> rfl

/-- C5 (amended): handling `Unsubscribe{name}` removes the entry under
`name` from the subscription set and leaves `waiting_for_next_message`
(and the message buffer) unchanged — the flag is not cleared even when
the set becomes empty; once the subscription set is empty, a subsequent
`Publish` frame delivers nothing to this connection. -/
theorem C5_unsubscribe (st : SM.ConnState) (t : String) (now : Nat) :
    (SM.handleFrame st (SM.CFrame.unsubscribe t) now).subscribedOn =
      st.subscribedOn.erase t ∧
    (SM.handleFrame st (SM.CFrame.unsubscribe t) now).waitingForNextMessage =
      st.waitingForNextMessage ∧
    (SM.handleFrame st (SM.CFrame.unsubscribe t) now).messageBuffer =
      st.messageBuffer ∧
    (∀ st' : SM.ConnState, st'.subscribedOn = [] →
      ∀ topic key payload mine now',
        (SM.step st' ⟨SM.CFrame.publish topic key payload, mine, now'⟩).2 =
          none ∧
        (SM.step st'
          ⟨SM.CFrame.publish topic key payload, mine, now'⟩).1.subscribedOn =
          []) := by
  refine ⟨rfl, rfl, rfl, ?_⟩
  intro st' hsub topic key payload mine now'
  by_cases hc : st'.closed = true
  · simp [SM.step, hc]
    exact hsub
  · have hc' : st'.closed = false := by
      rcases h : st'.closed with _ | _
      · rfl
      · exact absurd h hc
    have hnext : ∀ mb : SM.MessagesBuffer, ∀ reg now'',
        SM.MessagesBuffer.next mb [] reg now'' = (none, ⟨[], mb.dedupMap⟩) := by
      intro mb reg now''
      simp [SM.MessagesBuffer.next, nextRec_empty_sub]
    by_cases hw : st'.waitingForNextMessage = true
    · simp [SM.step, SM.deliverPhase, SM.peerIsMe, SM.handleFrame, hc', hw,
        hsub, hnext]
    · have hw' : st'.waitingForNextMessage = false := by
        rcases h : st'.waitingForNextMessage with _ | _
        · rfl
        · exact absurd h hw
      simp [SM.step, SM.deliverPhase, SM.peerIsMe, SM.handleFrame, hc', hw',
        hsub]

/-- Witness for C5 (amended) at a concrete one-topic state. -/
theorem C5_unsubscribe_witness :
    (SM.handleFrame
      ⟨["t"], SM.MessagesBuffer.new, [("t", ⟨none, none⟩)], true, false⟩
      (SM.CFrame.unsubscribe "t") 2).subscribedOn = ["t"].erase "t" ∧
    (SM.handleFrame
      ⟨["t"], SM.MessagesBuffer.new, [("t", ⟨none, none⟩)], true, false⟩
      (SM.CFrame.unsubscribe "t") 2).waitingForNextMessage = true ∧
    (SM.handleFrame
      ⟨["t"], SM.MessagesBuffer.new, [("t", ⟨none, none⟩)], true, false⟩
      (SM.CFrame.unsubscribe "t") 2).messageBuffer =
      SM.MessagesBuffer.new ∧
    (∀ st' : SM.ConnState, st'.subscribedOn = [] →
      ∀ topic key payload mine now',
        (SM.step st' ⟨SM.CFrame.publish topic key payload, mine, now'⟩).2 =
          none ∧
        (SM.step st'
          ⟨SM.CFrame.publish topic key payload, mine, now'⟩).1.subscribedOn =
          []) :=
  C5_unsubscribe
    ⟨["t"], SM.MessagesBuffer.new, [("t", ⟨none, none⟩)], true, false⟩
    "t" 2

/-- C6: every `publish` constructs its message with
`expires_at = received_at + retention_ttl` when the topic's retention is
enabled and with `expires_at` absent otherwise, and appends exactly that
message (if anything) to the broadcast log; a message whose `expires_at`
is absent is never removed from the retained buffer by the expiry
cleanup. -/
theorem C6_expiry_stamp (tc : TC.TopicController) (key : Option String)
    (payload : List Nat) (receivedAt now : Nat) (tc' : TC.TopicController)
    (h : tc.publish key payload receivedAt now = some tc') :
    (∀ ttl, tc.settings.retentionTtl = some ttl →
      (TC.publishedMessage tc.settings key payload receivedAt).expiresAt =
        some (receivedAt + ttl)) ∧
    (tc.settings.retentionTtl = none →
      (TC.publishedMessage tc.settings key payload receivedAt).expiresAt =
        none) ∧
    (tc'.broadcastLog = tc.broadcastLog ∨
      tc'.broadcastLog = tc.broadcastLog ++
        [TC.publishedMessage tc.settings key payload receivedAt]) ∧
    (∀ buffer buf',
      TC.cleanOutdatedRetainedMessages tc.settings buffer now = some buf' →
      ∀ m ∈ buffer, m.expiresAt = none → m ∈ buf') := by
  obtain ⟨buffer, -, -, -, hlog, -, -⟩ :=
    publish_spec tc key payload receivedAt now tc' h
  refine ⟨?_, ?_, ?_, ?_⟩
  · intro ttl httl
    simp [TC.publishedMessage, httl]
  · intro httl
    simp [TC.publishedMessage, httl]
  · rw [hlog]
    exact prePublish_broadcastLog tc key payload receivedAt now
  · intro buf buf' hclean m hm he
    rw [TC.cleanOutdatedRetainedMessages] at hclean
    rcases hr : tc.settings.retentionTtl with _ | ttl
    · rw [hr] at hclean
      simp only [Option.isSome_none, Bool.false_eq_true, if_false,
        Option.some.injEq] at hclean
      rw [← hclean]
      exact hm
    · rw [hr] at hclean
      simp only [Option.isSome_some, if_pos] at hclean
      rw [retainUnexpired_none_of_mem now buf m hm he] at hclean
      simp at hclean

/-- Witness for C6 at a concrete publish on a retention-enabled topic. -/
theorem C6_expiry_stamp_witness :
    (∀ ttl, (TC.TopicController.new "t" 5 0 0).settings.retentionTtl =
        some ttl →
      (TC.publishedMessage (TC.TopicController.new "t" 5 0 0).settings
        none [2] 3).expiresAt = some (3 + ttl)) ∧
    ((TC.TopicController.new "t" 5 0 0).settings.retentionTtl = none →
      (TC.publishedMessage (TC.TopicController.new "t" 5 0 0).settings
        none [2] 3).expiresAt = none) ∧
    (({ name := "t", settings := ⟨some 5, none, 1000⟩,
        broadcastLog := [⟨none, [2], 3, some 8⟩],
        compactionMap := [],
        retainedBuffer := [⟨none, [2], 3, some 8⟩] } :
       TC.TopicController).broadcastLog =
        (TC.TopicController.new "t" 5 0 0).broadcastLog ∨
      ({ name := "t", settings := ⟨some 5, none, 1000⟩,
         broadcastLog := [⟨none, [2], 3, some 8⟩],
         compactionMap := [],
         retainedBuffer := [⟨none, [2], 3, some 8⟩] } :
        TC.TopicController).broadcastLog =
        (TC.TopicController.new "t" 5 0 0).broadcastLog ++
          [TC.publishedMessage (TC.TopicController.new "t" 5 0 0).settings
            none [2] 3]) ∧
    (∀ buffer buf',
      TC.cleanOutdatedRetainedMessages
        (TC.TopicController.new "t" 5 0 0).settings buffer 3 = some buf' →
      ∀ m ∈ buffer, m.expiresAt = none → m ∈ buf') :=
  C6_expiry_stamp (TC.TopicController.new "t" 5 0 0) none [2] 3 3
    { name := "t", settings := ⟨some 5, none, 1000⟩,
      broadcastLog := [⟨none, [2], 3, some 8⟩],
      compactionMap := [],
      retainedBuffer := [⟨none, [2], 3, some 8⟩] }
    (by decide)

